import Mathlib

/-!
Shallow embedding of the AMB Dynamic Energy integration
(custom_components/amb_dynamic_energy/{coordinator.py, sensor.py, const.py}).

Strings are modelled as Lean `String`s; Python string helpers (`str.split`,
`int(...)`) are re-implemented below by structural recursion on character
lists so that every definition evaluates inside the kernel.  Python dict
rows are modelled as structures whose optional keys are `Option` fields
(`dict.get(k, d)` becomes `Option.getD`).  Python exceptions escaping a
function are modelled by an `Except Unit` result; exceptions swallowed by a
`try`/`except` block (as in `_time_to_minutes`) are folded into the value.
-/

namespace AMB

/-- Decidable equality for exception-carrying results, so that concrete runs
of the embedded functions can be checked by `decide`. -/
instance {ε α : Type} [DecidableEq ε] [DecidableEq α] : DecidableEq (Except ε α) := fun x y =>
  match x, y with
  | Except.ok a, Except.ok b =>
    if h : a = b then isTrue (h ▸ rfl) else isFalse (fun hh => h (Except.ok.inj hh))
  | Except.error a, Except.error b =>
    if h : a = b then isTrue (h ▸ rfl) else isFalse (fun hh => h (Except.error.inj hh))
  | Except.ok _, Except.error _ => isFalse (fun hh => Except.noConfusion hh)
  | Except.error _, Except.ok _ => isFalse (fun hh => Except.noConfusion hh)

/-- If `sep` is a prefix of `l`, return the remainder of `l` after it. -/
def takesSep : List Char → List Char → Option (List Char)
  | [], l => some l
  | _, [] => none
  | s :: ss, c :: cs => if c = s then takesSep ss cs else none

/-- Split a char list at each non-overlapping occurrence of `sep` (non-empty),
scanning left to right.  `acc` holds the current token reversed; `fuel` (any
value at least the length of the input) makes the recursion structural. -/
def splitCharsAux (sep : List Char) : Nat → List Char → List Char → List (List Char)
  | 0, _, acc => [acc.reverse]
  | _ + 1, [], acc => [acc.reverse]
  | fuel + 1, c :: cs, acc =>
    match takesSep sep (c :: cs) with
    | some rest => acc.reverse :: splitCharsAux sep fuel rest []
    | none => splitCharsAux sep fuel cs (c :: acc)

/-- Embedding of Python `s.split(sep)` for a non-empty separator `sep`. -/
def pySplit (s sep : String) : List String :=
  (splitCharsAux sep.data (s.data.length + 1) s.data []).map String.mk

/-- ASCII whitespace accepted (and stripped) by Python `int(...)`. -/
def isPyWs (c : Char) : Bool :=
  c = ' ' || c = '\t' || c = '\n' || c = '\r' || c = '\x0b' || c = '\x0c'

/-- Digits of a Python int literal after the first one: decimal digits with
single underscores allowed between digits. -/
def pyDigitsAux : List Char → Nat → Option Nat
  | [], acc => some acc
  | '_' :: c :: rest, acc =>
    if c.isDigit then pyDigitsAux rest (acc * 10 + (c.toNat - 48)) else none
  | c :: rest, acc =>
    if c.isDigit then pyDigitsAux rest (acc * 10 + (c.toNat - 48)) else none

/-- Nonempty decimal digit run with underscore separators, as in Python. -/
def pyDigits : List Char → Option Nat
  | c :: rest => if c.isDigit then pyDigitsAux rest (c.toNat - 48) else none
  | [] => none

/-- Embedding of Python `int(s)` for a string argument: optional surrounding
ASCII whitespace, an optional sign, then a decimal digit run.  `none` stands
for the `ValueError` Python raises on any other shape.  (Non-ASCII digits and
whitespace, which CPython also accepts, do not occur in this data source and
are not modelled.) -/
def pyInt? (s : String) : Option Int :=
  let cs := ((s.data.dropWhile isPyWs).reverse.dropWhile isPyWs).reverse
  match cs with
  | '+' :: rest => (pyDigits rest).map Int.ofNat
  | '-' :: rest => (pyDigits rest).map (fun n => -(Int.ofNat n))
  | rest => (pyDigits rest).map Int.ofNat

/-- The two-integer `HH:MM` parse attempted by `_time_to_minutes`:
`hours, minutes = map(int, time_str.split(":"))` succeeds exactly when the
split yields two pieces and both parse as Python ints. -/
def parseHM (s : String) : Option (Int × Int) :=
  match (pySplit s ":").map pyInt? with
  | [some h, some m] => some (h, m)
  | _ => none

/-- Embedding of `_time_to_minutes` (coordinator.py:223-230, sensor.py:213-219,
440-446): convert `HH:MM` to minutes since midnight; any parse failure is
swallowed by the `try`/`except` and yields 0. -/
def time_to_minutes (time_str : String) : Int :=
  match parseHM time_str with
  | some (h, m) => h * 60 + m
  | none => 0

/-- Decidable form of "the token parses as two colon-separated ints". -/
def twoIntForm (s : String) : Bool :=
  (parseHM s).isSome

/-- One row of a day's forecast, as received over the wire.  Keys may be
absent from the JSON object, hence the `Option` fields. -/
structure Period where
  hour_range : Option String
  price : Option String
  deriving DecidableEq

/-- One day record of the forecast payload. -/
structure DayForecast where
  date : Option String
  forecast : Option (List Period)
  deriving DecidableEq

/-- Raw top-level JSON payload of one successful HTTP fetch; both keys may be
missing. -/
structure RawData where
  current_price : Option String
  forecasts : Option (List DayForecast)
  deriving DecidableEq

/-- Normalized schedule slot, one entry of the list built by
`_build_schedule_for_date`: half-open minute interval plus price label. -/
structure Slot where
  start_m : Int
  end_m : Int
  price : String
  deriving DecidableEq

/-- Result dict of `_find_current_period` (keys price/start/end). -/
structure CurrentPeriod where
  price : Option String
  start_s : String
  end_s : String
  deriving DecidableEq

/-- Result dict of `_find_next_change` (keys time/price/date). -/
structure NextChange where
  time : String
  price : Option String
  date : String
  deriving DecidableEq

/-- The parts of `dt_util.now()` the code reads: today's and tomorrow's date
strings, the minute of day (hour*60+minute), and the ISO timestamp. -/
structure Clock where
  today : String
  tomorrow : String
  minutes : Int
  iso : String
  deriving DecidableEq

/-- Dict produced by `_process_data`: the snapshot handed to the sensors.
The optional current_period/next_change entries are present only when a
current period was found. -/
structure ProcessedData where
  current_price : String
  forecasts : List DayForecast
  last_updated : String
  current_period : Option CurrentPeriod
  next_change : Option NextChange
  today_schedule : List Period
  tomorrow_schedule : List Period
  deriving DecidableEq

/-- One entry of the chart data list built by `_generate_chart_data`. -/
structure ChartRow where
  date : Option String
  start_time : String
  end_time : String
  price : String
  price_value : Int
  timestamp : String
  deriving DecidableEq

/-- Per-row normalization shared by the schedule scans: a row whose
hour_range splits on " - " into exactly two pieces yields a slot with
parsed start minute, end minute (the literal end label "23:59" becomes
1440), and price defaulted to "unknown"; any other row yields nothing. -/
def rowSlot? (p : Period) : Option Slot :=
  match pySplit (p.hour_range.getD "") " - " with
  | [s, e] =>
    some ⟨time_to_minutes s,
          if e = "23:59" then 1440 else time_to_minutes e,
          p.price.getD "unknown"⟩
  | _ => none

/-- Row loop of `_build_schedule_for_date` (sensor.py:334-342): rows without
the separator are skipped; a row whose range contains " - " more than once
makes the two-name unpacking raise (modelled as `Except.error ()`). -/
def buildRows : List Period → Except Unit (List Slot)
  | [] => Except.ok []
  | p :: rest =>
    match pySplit (p.hour_range.getD "") " - " with
    | [s, e] =>
      (buildRows rest).map
        (fun tail =>
          ⟨time_to_minutes s,
           if e = "23:59" then 1440 else time_to_minutes e,
           p.price.getD "unknown"⟩ :: tail)
    | xs => if xs.length ≤ 1 then buildRows rest else Except.error ()

/-- Stable insertion into a list sorted by start minute: the new element goes
before the first strictly larger key. -/
def insertSorted (x : Slot) : List Slot → List Slot
  | [] => [x]
  | y :: ys => if y.start_m < x.start_m then y :: insertSorted x ys else x :: y :: ys

/-- Stable ascending sort by start minute.  Python's list.sort (Timsort) is
also stable, so on the same key both produce the same output list. -/
def sortByStart : List Slot → List Slot
  | [] => []
  | x :: xs => insertSorted x (sortByStart xs)

/-- Embedding of `AMBCurrentDurationSensor._build_schedule_for_date`
(sensor.py:330-346): the first day record with the requested date is
normalized into a start-sorted slot list; no matching date gives []. -/
def build_schedule_for_date : List DayForecast → String → Except Unit (List Slot)
  | [], _ => Except.ok []
  | day :: rest, date_str =>
    if day.date = some date_str then
      (buildRows (day.forecast.getD [])).map sortByStart
    else build_schedule_for_date rest date_str

/-- Current-slot search of `_calculate_merged_remaining` (sensor.py:281-287):
first slot whose half-open interval contains the minute, together with the
slots after it. -/
def findCurrent : List Slot → Int → Option (Slot × List Slot)
  | [], _ => none
  | s :: rest, m =>
    if s.start_m ≤ m ∧ m < s.end_m then some (s, rest) else findCurrent rest m

/-- Within-day merge loop of `_calculate_merged_remaining`
(sensor.py:293-300): extend the boundary through each following slot that
starts exactly at the boundary with the same price; stop at the first other
slot. -/
def mergeForward (price : String) : Int → List Slot → Int
  | e, [] => e
  | e, s :: rest =>
    if s.start_m = e ∧ s.price = price then mergeForward price s.end_m rest else e

/-- Embedding of `AMBCurrentDurationSensor._calculate_merged_remaining`
(sensor.py:267-328): find the current slot today, merge forward within
today, and when the boundary reaches the end of day merge tomorrow's head
chain (tomorrow's first slot must start at minute 0 with the same price);
the result counts minutes from now to the merged boundary. -/
def calculate_merged_remaining (fs : List DayForecast) (today tomorrow : String)
    (m : Int) : Except Unit (Option Int) :=
  match build_schedule_for_date fs today with
  | Except.error e => Except.error e
  | Except.ok today_sched =>
    match findCurrent today_sched m with
    | none => Except.ok none
    | some (cur, rest) =>
      let merged_end := mergeForward cur.price cur.end_m rest
      if 1440 ≤ merged_end then
        match build_schedule_for_date fs tomorrow with
        | Except.error e => Except.error e
        | Except.ok [] => Except.ok (some (merged_end - m))
        | Except.ok (h :: t) =>
          if h.start_m = 0 ∧ h.price = cur.price then
            Except.ok (some (1440 + mergeForward cur.price h.end_m t - m))
          else Except.ok (some (merged_end - m))
      else Except.ok (some (merged_end - m))

/-- Row loop of `AMBCurrentPriceSensor._calculate_current_price`
(sensor.py:133-141): return the price (defaulted to "unknown") of the first
row whose normalized interval contains the minute; separator-less rows are
skipped; a doubly-separated row raises. -/
def scanPeriodsPrice : List Period → Int → Except Unit (Option String)
  | [], _ => Except.ok none
  | p :: rest, m =>
    match pySplit (p.hour_range.getD "") " - " with
    | [s, e] =>
      if time_to_minutes s ≤ m ∧ m < (if e = "23:59" then 1440 else time_to_minutes e) then
        Except.ok (some (p.price.getD "unknown"))
      else scanPeriodsPrice rest m
    | xs => if xs.length ≤ 1 then scanPeriodsPrice rest m else Except.error ()

/-- Embedding of `AMBCurrentPriceSensor._calculate_current_price`
(sensor.py:124-142): scan every day record whose date is today, in order. -/
def calculate_current_price : List DayForecast → String → Int → Except Unit (Option String)
  | [], _, _ => Except.ok none
  | day :: rest, today, m =>
    if day.date = some today then
      match scanPeriodsPrice (day.forecast.getD []) m with
      | Except.error e => Except.error e
      | Except.ok (some p) => Except.ok (some p)
      | Except.ok none => calculate_current_price rest today m
    else calculate_current_price rest today m

/-- Row loop of `AMBDataUpdateCoordinator._find_current_period`
(coordinator.py:156-173): like the price scan but returning the raw
start/end strings and the price without a default. -/
def scanPeriodsCurrent : List Period → Int → Except Unit (Option CurrentPeriod)
  | [], _ => Except.ok none
  | p :: rest, m =>
    match pySplit (p.hour_range.getD "") " - " with
    | [s, e] =>
      let start_minutes := time_to_minutes s
      let end_minutes := if e = "23:59" then 1440 else time_to_minutes e
      if start_minutes ≤ m ∧ m < end_minutes then
        Except.ok (some ⟨p.price, s, e⟩)
      else scanPeriodsCurrent rest m
    | xs => if xs.length ≤ 1 then scanPeriodsCurrent rest m else Except.error ()

/-- Embedding of `AMBDataUpdateCoordinator._find_current_period`
(coordinator.py:149-174). -/
def find_current_period : List DayForecast → String → Int → Except Unit (Option CurrentPeriod)
  | [], _, _ => Except.ok none
  | day :: rest, today, m =>
    if day.date = some today then
      match scanPeriodsCurrent (day.forecast.getD []) m with
      | Except.error e => Except.error e
      | Except.ok (some r) => Except.ok (some r)
      | Except.ok none => find_current_period rest today m
    else find_current_period rest today m

/-- Today-scan row loop of `_find_next_change` (coordinator.py:186-197):
first row with a separator whose start minute is strictly after now. -/
def scanPeriodsToday : List Period → Int → String → Except Unit (Option NextChange)
  | [], _, _ => Except.ok none
  | p :: rest, m, today =>
    match pySplit (p.hour_range.getD "") " - " with
    | [s, _] =>
      if m < time_to_minutes s then Except.ok (some ⟨s, p.price, today⟩)
      else scanPeriodsToday rest m today
    | xs => if xs.length ≤ 1 then scanPeriodsToday rest m today else Except.error ()

/-- Today half of `AMBDataUpdateCoordinator._find_next_change`
(coordinator.py:184-197). -/
def nextChangeToday : List DayForecast → String → Int → Except Unit (Option NextChange)
  | [], _, _ => Except.ok none
  | day :: rest, today, m =>
    if day.date = some today then
      match scanPeriodsToday (day.forecast.getD []) m today with
      | Except.error e => Except.error e
      | Except.ok (some r) => Except.ok (some r)
      | Except.ok none => nextChangeToday rest today m
    else nextChangeToday rest today m

/-- Tomorrow half of `AMBDataUpdateCoordinator._find_next_change`
(coordinator.py:200-212): only the literal first row of a matching non-empty
day record is examined; if it has no separator the loop simply moves on to
any further record with the same date. -/
def nextChangeTomorrow : List DayForecast → String → Except Unit (Option NextChange)
  | [], _ => Except.ok none
  | day :: rest, tomorrow =>
    if day.date = some tomorrow then
      match day.forecast.getD [] with
      | [] => nextChangeTomorrow rest tomorrow
      | p :: _ =>
        match pySplit (p.hour_range.getD "") " - " with
        | [s, _] => Except.ok (some ⟨s, p.price, tomorrow⟩)
        | xs => if xs.length ≤ 1 then nextChangeTomorrow rest tomorrow else Except.error ()
    else nextChangeTomorrow rest tomorrow

/-- Embedding of `AMBDataUpdateCoordinator._find_next_change`
(coordinator.py:177-214). -/
def find_next_change (fs : List DayForecast) (today tomorrow : String)
    (m : Int) : Except Unit (Option NextChange) :=
  match nextChangeToday fs today m with
  | Except.error e => Except.error e
  | Except.ok (some r) => Except.ok (some r)
  | Except.ok none => nextChangeTomorrow fs tomorrow

/-- Embedding of `AMBDataUpdateCoordinator._get_day_schedule`
(coordinator.py:216-221): raw forecast rows of the first matching day. -/
def get_day_schedule : List DayForecast → String → List Period
  | [], _ => []
  | day :: rest, date_str =>
    if day.date = some date_str then day.forecast.getD []
    else get_day_schedule rest date_str

/-- Row loop of `AMBPriceScheduleSensor._generate_chart_data`
(sensor.py:492-508) for one day record. -/
def chartRows (date : Option String) : List Period → Except Unit (List ChartRow)
  | [] => Except.ok []
  | p :: rest =>
    match pySplit (p.hour_range.getD "") " - " with
    | [s, e] =>
      (chartRows date rest).map
        (fun tail =>
          ⟨date, s, e, p.price.getD "unknown",
           if p.price.getD "unknown" = "high" then 1 else 0,
           (match date with | some d => d | none => "None") ++ "T" ++ s ++ ":00"⟩ :: tail)
    | xs => if xs.length ≤ 1 then chartRows date rest else Except.error ()

/-- Embedding of `AMBPriceScheduleSensor._generate_chart_data`
(sensor.py:485-509): rows of every day record, in order; separator-less
rows are skipped. -/
def generate_chart_data : List DayForecast → Except Unit (List ChartRow)
  | [] => Except.ok []
  | day :: rest =>
    match chartRows day.date (day.forecast.getD []) with
    | Except.error e => Except.error e
    | Except.ok l => (generate_chart_data rest).map (fun tail => l ++ tail)

/-- Embedding of `AMBDataUpdateCoordinator._process_data`
(coordinator.py:122-147): missing top-level keys are defaulted
("unknown" / []); the current_period and next_change entries are added only
when a current period exists. -/
def process_data (clk : Clock) (raw : RawData) : Except Unit ProcessedData :=
  let current_price := raw.current_price.getD "unknown"
  let forecasts := raw.forecasts.getD []
  match find_current_period forecasts clk.today clk.minutes with
  | Except.error e => Except.error e
  | Except.ok none =>
    Except.ok ⟨current_price, forecasts, clk.iso, none, none,
               get_day_schedule forecasts clk.today,
               get_day_schedule forecasts clk.tomorrow⟩
  | Except.ok (some cp) =>
    match find_next_change forecasts clk.today clk.tomorrow clk.minutes with
    | Except.error e => Except.error e
    | Except.ok nc =>
      Except.ok ⟨current_price, forecasts, clk.iso, some cp, nc,
                 get_day_schedule forecasts clk.today,
                 get_day_schedule forecasts clk.tomorrow⟩

/-- RETRY_ATTEMPTS (const.py:13): size of the fast retry tier. -/
def RETRY_ATTEMPTS : Nat := 5

/-- EXTENDED_RETRY_ATTEMPTS (const.py:15): size of the extended retry tier. -/
def EXTENDED_RETRY_ATTEMPTS : Nat := 20

/-- Outcome of one `_fetch_data()` call, as classified by the retry loops:
a JSON payload, an `aiohttp.ClientError` (the only exception class the loops
catch), or any other exception. -/
inductive AttemptResult where
  | ok (data : RawData)
  | clientError
  | otherError
  deriving DecidableEq

/-- Outcome of `_fetch_data_with_retry`: a returned snapshot dict, a raised
`UpdateFailed`, or a non-ClientError exception propagating out of the loops
(`_async_update_data` later wraps the latter into `UpdateFailed` too). -/
inductive RefreshResult where
  | success (d : ProcessedData)
  | updateFailed
  | raised
  deriving DecidableEq

/-- Successful-fetch path shared by both tiers: `_process_data` is applied to
the payload inside the `try` block, and an exception it raises is not a
ClientError, so it escapes the loop. -/
def processAttempt (clk : Clock) (raw : RawData) : RefreshResult :=
  match process_data clk raw with
  | Except.ok d => RefreshResult.success d
  | Except.error _ => RefreshResult.raised

/-- Embedding of `AMBDataUpdateCoordinator._extended_retry`
(coordinator.py:85-111), parameterized by the oracle of successive fetch
outcomes (`oracle i` is the result of the i-th `_fetch_data()` call overall)
and the cached snapshot `self.data`.  `base` is the number of calls already
made; the returned number is the total count of fetch calls.  On exhaustion
the cached data is returned if present, else `UpdateFailed` is raised. -/
def extendedRetryAux (oracle : Nat → AttemptResult) (cached : Option ProcessedData)
    (clk : Clock) : Nat → Nat → RefreshResult × Nat
  | base, 0 =>
    (match cached with
     | some d => RefreshResult.success d
     | none => RefreshResult.updateFailed, base)
  | base, n + 1 =>
    match oracle base with
    | AttemptResult.ok raw => (processAttempt clk raw, base + 1)
    | AttemptResult.clientError => extendedRetryAux oracle cached clk (base + 1) n
    | AttemptResult.otherError => (RefreshResult.raised, base + 1)

/-- Fast-tier loop of `AMBDataUpdateCoordinator._fetch_data_with_retry`
(coordinator.py:61-83): when the last fast attempt fails with a ClientError
the extended tier is entered; the `raise UpdateFailed` after the loop is
unreachable but kept for fidelity (the fuel-0 case). -/
def fastRetryAux (oracle : Nat → AttemptResult) (cached : Option ProcessedData)
    (clk : Clock) : Nat → Nat → RefreshResult × Nat
  | base, 0 => (RefreshResult.updateFailed, base)
  | base, n + 1 =>
    match oracle base with
    | AttemptResult.ok raw => (processAttempt clk raw, base + 1)
    | AttemptResult.clientError =>
      if n = 0 then extendedRetryAux oracle cached clk (base + 1) EXTENDED_RETRY_ATTEMPTS
      else fastRetryAux oracle cached clk (base + 1) n
    | AttemptResult.otherError => (RefreshResult.raised, base + 1)

/-- Embedding of `AMBDataUpdateCoordinator._fetch_data_with_retry`
(coordinator.py:61-83), returning the outcome together with the total number
of `_fetch_data()` calls made. -/
def fetch_data_with_retry (oracle : Nat → AttemptResult) (cached : Option ProcessedData)
    (clk : Clock) : RefreshResult × Nat :=
  fastRetryAux oracle cached clk 0 RETRY_ATTEMPTS

/-- Embedding of `AMBDataUpdateCoordinator._async_update_data`
(coordinator.py:54-59): any exception escaping the retry machinery is
wrapped into `UpdateFailed`. -/
def async_update_data (oracle : Nat → AttemptResult) (cached : Option ProcessedData)
    (clk : Clock) : RefreshResult × Nat :=
  match fetch_data_with_retry oracle cached clk with
  | (RefreshResult.raised, n) => (RefreshResult.updateFailed, n)
  | r => r

/-- Contiguous same-price run check: each slot starts exactly where the
previous one ended and carries the given price. -/
def chainOK (price : String) : Int → List Slot → Bool
  | _, [] => true
  | e, s :: rest => (s.start_m = e && s.price = price) && chainOK price s.end_m rest

/-- End minute of a run of slots, starting from boundary `e`. -/
def chainEnd : Int → List Slot → Int
  | e, [] => e
  | _, s :: rest => chainEnd s.end_m rest

/-- The head of the list (if any) does not continue a same-price contiguous
run at boundary `e`. -/
def breaksChain (price : String) (e : Int) : List Slot → Bool
  | [] => true
  | s :: _ => !(s.start_m = e && s.price = price)

/-- Concatenation of the forecast rows of every day record carrying the given
date, in scan order. -/
def rowsOf : List DayForecast → String → List Period
  | [], _ => []
  | day :: rest, d =>
    if day.date = some d then day.forecast.getD [] ++ rowsOf rest d
    else rowsOf rest d

/-- Normalized windows of a date's schedule: every row with exactly one
" - " separator, as a slot (spec view used to state the lookup claims). -/
def todayWindows (fs : List DayForecast) (d : String) : List Slot :=
  (rowsOf fs d).filterMap rowSlot?

/-- Start string and price of a row with exactly one " - " separator. -/
def rowStart? (p : Period) : Option (String × Option String) :=
  match pySplit (p.hour_range.getD "") " - " with
  | [s, _] => some (s, p.price)
  | _ => none

/-- Next-change result as the specification words it: the first of today's
windows (in scan order) starting strictly after now; if none, tomorrow's
first window unconditionally; otherwise nothing. -/
def specNextChange (fs : List DayForecast) (today tomorrow : String)
    (m : Int) : Option NextChange :=
  match ((rowsOf fs today).filterMap rowStart?).find?
      (fun c => decide (m < time_to_minutes c.1)) with
  | some c => some ⟨c.1, c.2, today⟩
  | none =>
    match rowsOf fs tomorrow with
    | [] => none
    | p :: _ => (rowStart? p).map (fun c => ⟨c.1, c.2, tomorrow⟩)

/-- A row is clean when its hour_range does not contain " - " twice, i.e.
the two-name unpacking in the source cannot raise on it. -/
def cleanRow (p : Period) : Bool :=
  (pySplit (p.hour_range.getD "") " - ").length ≤ 2

/-- Every row of every day record is clean. -/
def cleanForecasts (fs : List DayForecast) : Bool :=
  fs.all (fun day => (day.forecast.getD []).all cleanRow)

/-- Every row of every day record splits into exactly two pieces, i.e. is a
well-formed "start - end" range. -/
def fullRanges (fs : List DayForecast) : Bool :=
  fs.all (fun day =>
    (day.forecast.getD []).all
      (fun p => (pySplit (p.hour_range.getD "") " - ").length = 2))

/-- Two slots have no common minute (half-open intervals): disjoint ranges,
or one of them empty. -/
def noOverlap (a b : Slot) : Bool :=
  a.end_m ≤ b.start_m || b.end_m ≤ a.start_m || a.end_m ≤ a.start_m || b.end_m ≤ b.start_m

/-- Pairwise non-overlap for a window list. -/
def pairwiseNoOverlap : List Slot → Bool
  | [] => true
  | a :: rest => rest.all (noOverlap a) && pairwiseNoOverlap rest

/-- A row has the " - " separator (the guard each scan loop checks). -/
def hasSep (p : Period) : Bool :=
  2 ≤ (pySplit (p.hour_range.getD "") " - ").length

/-- Remove every separator-less row from every day record, keeping all else:
the "as if the garbage rows were absent" view of a snapshot. -/
def dropGarbage (fs : List DayForecast) : List DayForecast :=
  fs.map (fun day => ⟨day.date, some ((day.forecast.getD []).filter hasSep)⟩)


/-- Three-window day used by the merge-boundary demonstration: two contiguous
low windows then a high window. -/
def fsMergeDemo : List DayForecast :=
  [⟨some "2025-06-01",
    some [⟨some "00:00 - 06:00", some "low"⟩,
          ⟨some "06:00 - 10:00", some "low"⟩,
          ⟨some "10:00 - 15:00", some "high"⟩]⟩]

/-- Snapshot whose today window ends at the "23:59" marker and whose tomorrow
holds two further contiguous same-price windows, so the cross-midnight chain
keeps extending through tomorrow's list. -/
def fsMidnightChain : List DayForecast :=
  [⟨some "2025-06-01", some [⟨some "23:00 - 23:59", some "low"⟩]⟩,
   ⟨some "2025-06-02",
    some [⟨some "00:00 - 01:00", some "low"⟩,
          ⟨some "01:00 - 02:00", some "low"⟩]⟩]

/-- Snapshot whose tomorrow record starts with a separator-less garbage row
followed by a well-formed window. -/
def fsGarbageTomorrow : List DayForecast :=
  [⟨some "2025-03-02",
    some [⟨some "garbage", some "low"⟩,
          ⟨some "06:00 - 10:00", some "low"⟩]⟩]

/-- Day whose middle row is garbage, leaving a gap between two low windows. -/
def fsGapRun : List DayForecast :=
  [⟨some "2025-08-01",
    some [⟨some "00:00 - 06:00", some "low"⟩,
          ⟨some "06:00", some "low"⟩,
          ⟨some "10:00 - 15:00", some "low"⟩]⟩]

/-- Day with two disjoint windows of different prices. -/
def fsTwoWindows : List DayForecast :=
  [⟨some "2025-09-01",
    some [⟨some "00:00 - 06:00", some "low"⟩,
          ⟨some "10:00 - 15:00", some "high"⟩]⟩]

/-- Snapshot with a today record fully covered early and a tomorrow record
whose first window carries the same price as today's last window. -/
def fsTodayTomorrow : List DayForecast :=
  [⟨some "2025-07-01", some [⟨some "00:00 - 23:59", some "low"⟩]⟩,
   ⟨some "2025-07-02", some [⟨some "00:00 - 06:00", some "low"⟩]⟩]

/-- Fixed sample clock for concrete runs. -/
def clk0 : Clock := ⟨"2025-06-01", "2025-06-02", 200, "iso"⟩

/-- Snapshot produced from an empty payload under the sample clock. -/
def pd0 : ProcessedData := ⟨"unknown", [], "iso", none, none, [], []⟩

/-- A distinctive previously cached snapshot. -/
def pdCached : ProcessedData :=
  ⟨"low", [], "2025-05-31T22:00:00", none, none, [], []⟩

/-- Fetch oracle that fails four times with a ClientError and then delivers an
empty payload. -/
def oracleFailFour : Nat → AttemptResult :=
  fun i => if i < 4 then AttemptResult.clientError else AttemptResult.ok ⟨none, none⟩

/-- A list whose head does not continue the chain leaves the merge boundary
unchanged. -/
theorem mergeForward_of_breaks (p : String) (e : Int) (l : List Slot)
    (h : breaksChain p e l = true) : mergeForward p e l = e := by
  cases l with
  | nil => rfl
  | cons s rest =>
    have hcond : ¬(s.start_m = e ∧ s.price = p) := by
      intro hc
      simp [breaksChain, hc.1, hc.2] at h
    simp only [mergeForward, if_neg hcond]

/-- The merge loop walks through a whole contiguous same-price run and stops
at the first slot that does not continue it. -/
theorem mergeForward_chain (p : String) (e : Int) (pre post : List Slot)
    (hpre : chainOK p e pre = true)
    (hpost : breaksChain p (chainEnd e pre) post = true) :
    mergeForward p e (pre ++ post) = chainEnd e pre := by
  induction pre generalizing e with
  | nil => exact mergeForward_of_breaks p e post hpost
  | cons s rest ih =>
    simp only [chainOK, Bool.and_eq_true, decide_eq_true_eq] at hpre
    obtain ⟨⟨h1, h2⟩, h3⟩ := hpre
    simp only [List.cons_append, mergeForward, if_pos (And.intro h1 h2)]
    exact ih s.end_m h3 hpost

/-- Finding in an appended list: the left part wins when it has a match. -/
theorem find?_split {α : Type} (l1 l2 : List α) (p : α → Bool) :
    (l1 ++ l2).find? p =
      (match l1.find? p with
       | some a => some a
       | none => l2.find? p) := by
  induction l1 with
  | nil => rfl
  | cons a rest ih =>
    by_cases hp : p a
    · simp [List.find?_cons_of_pos, hp]
    · simp only [List.cons_append]
      rw [List.find?_cons_of_neg _ (by simpa using hp),
          List.find?_cons_of_neg _ (by simpa using hp)]
      exact ih

/-- One successful attempt inside the fast tier. -/
theorem fastRetryAux_ok (oracle : Nat → AttemptResult) (cached : Option ProcessedData)
    (clk : Clock) (base n : Nat) (raw : RawData) (hn : n ≠ 0)
    (h : oracle base = AttemptResult.ok raw) :
    fastRetryAux oracle cached clk base n = (processAttempt clk raw, base + 1) := by
  cases n with
  | zero => exact absurd rfl hn
  | succ k => simp only [fastRetryAux, h]

/-- One non-ClientError attempt inside the fast tier: the loop aborts. -/
theorem fastRetryAux_other (oracle : Nat → AttemptResult) (cached : Option ProcessedData)
    (clk : Clock) (base n : Nat) (hn : n ≠ 0)
    (h : oracle base = AttemptResult.otherError) :
    fastRetryAux oracle cached clk base n = (RefreshResult.raised, base + 1) := by
  cases n with
  | zero => exact absurd rfl hn
  | succ k => simp only [fastRetryAux, h]

/-- One failed non-final attempt inside the fast tier steps to the next. -/
theorem fastRetryAux_client (oracle : Nat → AttemptResult) (cached : Option ProcessedData)
    (clk : Clock) (base n : Nat) (hn : n ≠ 0) (hn1 : n ≠ 1)
    (h : oracle base = AttemptResult.clientError) :
    fastRetryAux oracle cached clk base n = fastRetryAux oracle cached clk (base + 1) (n - 1) := by
  cases n with
  | zero => exact absurd rfl hn
  | succ k =>
    have hk : k ≠ 0 := by omega
    simp only [fastRetryAux, h, if_neg hk, Nat.succ_sub_one]

/-- The last failed fast attempt enters the extended tier. -/
theorem fastRetryAux_client_last (oracle : Nat → AttemptResult) (cached : Option ProcessedData)
    (clk : Clock) (base : Nat)
    (h : oracle base = AttemptResult.clientError) :
    fastRetryAux oracle cached clk base 1 =
      extendedRetryAux oracle cached clk (base + 1) EXTENDED_RETRY_ATTEMPTS := by
  simp [fastRetryAux, h]

/-- One successful attempt inside the extended tier. -/
theorem extendedRetryAux_ok (oracle : Nat → AttemptResult) (cached : Option ProcessedData)
    (clk : Clock) (base n : Nat) (raw : RawData) (hn : n ≠ 0)
    (h : oracle base = AttemptResult.ok raw) :
    extendedRetryAux oracle cached clk base n = (processAttempt clk raw, base + 1) := by
  cases n with
  | zero => exact absurd rfl hn
  | succ k => simp only [extendedRetryAux, h]

/-- One failed attempt inside the extended tier steps to the next. -/
theorem extendedRetryAux_client (oracle : Nat → AttemptResult) (cached : Option ProcessedData)
    (clk : Clock) (base n : Nat) (hn : n ≠ 0)
    (h : oracle base = AttemptResult.clientError) :
    extendedRetryAux oracle cached clk base n =
      extendedRetryAux oracle cached clk (base + 1) (n - 1) := by
  cases n with
  | zero => exact absurd rfl hn
  | succ k => simp only [extendedRetryAux, h, Nat.succ_sub_one]

/-- Skipping `k` consecutive ClientError attempts inside the fast tier. -/
theorem fastRetryAux_shift (oracle : Nat → AttemptResult) (cached : Option ProcessedData)
    (clk : Clock) :
    ∀ (k base n : Nat), k < n →
      (∀ j, j < k → oracle (base + j) = AttemptResult.clientError) →
      fastRetryAux oracle cached clk base n = fastRetryAux oracle cached clk (base + k) (n - k) := by
  intro k
  induction k with
  | zero => intro base n _ _; simp
  | succ i ih =>
    intro base n hk hcl
    have h0 : oracle base = AttemptResult.clientError := by
      have := hcl 0 (by omega)
      simpa using this
    rw [fastRetryAux_client oracle cached clk base n (by omega) (by omega) h0]
    rw [ih (base + 1) (n - 1) (by omega) (fun j hj => by
      have := hcl (j + 1) (by omega)
      rw [show base + 1 + j = base + (j + 1) by omega]
      exact this)]
    rw [show base + 1 + i = base + (i + 1) by omega, show n - 1 - i = n - (i + 1) by omega]

/-- Skipping `k` consecutive ClientError attempts inside the extended tier. -/
theorem extendedRetryAux_shift (oracle : Nat → AttemptResult) (cached : Option ProcessedData)
    (clk : Clock) :
    ∀ (k base n : Nat), k ≤ n →
      (∀ j, j < k → oracle (base + j) = AttemptResult.clientError) →
      extendedRetryAux oracle cached clk base n =
        extendedRetryAux oracle cached clk (base + k) (n - k) := by
  intro k
  induction k with
  | zero => intro base n _ _; simp
  | succ i ih =>
    intro base n hk hcl
    have h0 : oracle base = AttemptResult.clientError := by
      have := hcl 0 (by omega)
      simpa using this
    rw [extendedRetryAux_client oracle cached clk base n (by omega) h0]
    rw [ih (base + 1) (n - 1) (by omega) (fun j hj => by
      have := hcl (j + 1) (by omega)
      rw [show base + 1 + j = base + (j + 1) by omega]
      exact this)]
    rw [show base + 1 + i = base + (i + 1) by omega, show n - 1 - i = n - (i + 1) by omega]

/-- C9: every input string that is not of the HH:MM two-integer form is
parsed by the time-token parser to minute 0.  The parser is a total function
(the try/except in the source swallows the failure), so it never raises. -/
theorem time_to_minutes_malformed_is_zero (s : String) (h : twoIntForm s = false) :
    time_to_minutes s = 0 := by
  unfold twoIntForm at h
  unfold time_to_minutes
  cases hp : parseHM s with
  | none => rfl
  | some v => rw [hp] at h; simp at h

/-- Witness for C9: the malformed token "abc" is not of two-integer form and
parses to 0. -/
theorem time_to_minutes_malformed_is_zero_witness :
    twoIntForm "abc" = false ∧ time_to_minutes "abc" = 0 :=
  ⟨by decide, time_to_minutes_malformed_is_zero "abc" (by decide)⟩

/-- C2: the within-day merge extends the current window exactly through a
contiguous same-price run and stops at the first window that is
non-contiguous or differently priced; in particular, for today windows
[0,360,low),[360,600,low),[600,900,high) and now = 200 the merged end is 600
and the remaining minutes are 400, not 900. -/
theorem merge_stops_at_first_break :
    (∀ (p : String) (e : Int) (pre post : List Slot),
        chainOK p e pre = true →
        breaksChain p (chainEnd e pre) post = true →
        mergeForward p e (pre ++ post) = chainEnd e pre)
    ∧ calculate_merged_remaining fsMergeDemo "2025-06-01" "2025-06-02" 200
        = Except.ok (some 400) :=
  ⟨fun p e pre post hc hb => mergeForward_chain p e pre post hc hb, by decide⟩

/-- Witness for C2: the merge walks through the contiguous low run
[360,600) and stops at the high window [600,900). -/
theorem merge_stops_at_first_break_witness :
    chainOK "low" 360 [⟨360, 600, "low"⟩] = true ∧
    breaksChain "low" 600 [⟨600, 900, "high"⟩] = true ∧
    mergeForward "low" 360 ([⟨360, 600, "low"⟩] ++ [⟨600, 900, "high"⟩]) = 600 :=
  ⟨by decide, by decide,
   merge_stops_at_first_break.1 "low" 360 [⟨360, 600, "low"⟩] [⟨600, 900, "high"⟩]
     (by decide) (by decide)⟩

/-- C8: a fetch that fails four times with a ClientError and then succeeds
makes the refresh return the processed snapshot after exactly five calls,
inside the fast tier (an extended-tier run would make at least six calls). -/
theorem refresh_succeeds_on_fifth_attempt (oracle : Nat → AttemptResult)
    (cached : Option ProcessedData) (clk : Clock) (raw : RawData) (d : ProcessedData)
    (hfail : ∀ j, j < 4 → oracle j = AttemptResult.clientError)
    (hok : oracle 4 = AttemptResult.ok raw)
    (hproc : process_data clk raw = Except.ok d) :
    fetch_data_with_retry oracle cached clk = (RefreshResult.success d, 5) := by
  have h1 : fetch_data_with_retry oracle cached clk = fastRetryAux oracle cached clk 4 1 := by
    unfold fetch_data_with_retry RETRY_ATTEMPTS
    have := fastRetryAux_shift oracle cached clk 4 0 5 (by omega)
      (fun j hj => by simpa using hfail j hj)
    simpa using this
  rw [h1, fastRetryAux_ok oracle cached clk 4 1 raw (by omega) hok]
  unfold processAttempt
  rw [hproc]

/-- Witness for C8: four ClientErrors then an empty payload give five calls
and a successful snapshot. -/
theorem refresh_succeeds_on_fifth_attempt_witness :
    fetch_data_with_retry oracleFailFour none clk0 = (RefreshResult.success pd0, 5) :=
  refresh_succeeds_on_fifth_attempt oracleFailFour none clk0 ⟨none, none⟩ pd0
    (by decide) (by decide) (by decide)

/-- C4 (amended): after 5 + 20 ClientError failures the refresh returns the
previously cached snapshot unchanged when one exists — no stale-data flag is
added anywhere in the data; staleness is only logged — and raises a terminal
UpdateFailed when none exists. -/
theorem retry_exhaustion_returns_cache (oracle : Nat → AttemptResult)
    (cached : Option ProcessedData) (clk : Clock)
    (hfail : ∀ j, j < 25 → oracle j = AttemptResult.clientError) :
    fetch_data_with_retry oracle cached clk =
      ((match cached with
        | some d => RefreshResult.success d
        | none => RefreshResult.updateFailed), 25) := by
  have h1 : fetch_data_with_retry oracle cached clk = fastRetryAux oracle cached clk 4 1 := by
    unfold fetch_data_with_retry RETRY_ATTEMPTS
    have := fastRetryAux_shift oracle cached clk 4 0 5 (by omega)
      (fun j hj => by simpa using hfail j (by omega))
    simpa using this
  have h2 : fastRetryAux oracle cached clk 4 1 = extendedRetryAux oracle cached clk 5 20 := by
    have := fastRetryAux_client_last oracle cached clk 4 (hfail 4 (by omega))
    simpa [EXTENDED_RETRY_ATTEMPTS] using this
  have h3 : extendedRetryAux oracle cached clk 5 20 = extendedRetryAux oracle cached clk 25 0 := by
    have := extendedRetryAux_shift oracle cached clk 20 5 20 (by omega)
      (fun j hj => hfail (5 + j) (by omega))
    simpa using this
  rw [h1, h2, h3]
  rfl

/-- Witness for C4: both the cached and the cache-less exhaustion outcomes at
a concrete all-failing oracle. -/
theorem retry_exhaustion_returns_cache_witness :
    fetch_data_with_retry (fun _ => AttemptResult.clientError) (some pd0) clk0
      = (RefreshResult.success pd0, 25)
    ∧ fetch_data_with_retry (fun _ => AttemptResult.clientError) none clk0
      = (RefreshResult.updateFailed, 25) :=
  ⟨retry_exhaustion_returns_cache _ (some pd0) clk0 (fun _ _ => rfl),
   retry_exhaustion_returns_cache _ none clk0 (fun _ _ => rfl)⟩

/-- Counterexample for C4 as stated: after full exhaustion the refresh
returns the cached snapshot bit-for-bit unchanged — in particular no
stale-data flag is set on it; the snapshot type produced by the source has
no such field at all. -/
theorem retry_exhaustion_returns_cache_cex :
    fetch_data_with_retry (fun _ => AttemptResult.clientError) (some pdCached) clk0
      = (RefreshResult.success pdCached, 25) := by decide

/-- C7 (amended): a non-network, non-validation exception at attempt k+1
aborts the retry loop immediately — it is not counted as a regular failed
attempt and no further attempt is made — and `_async_update_data` wraps it
into a terminal UpdateFailed, so the controller itself does not crash. -/
theorem nonclient_exception_aborts (oracle : Nat → AttemptResult)
    (cached : Option ProcessedData) (clk : Clock) (k : Nat)
    (hk : k < 5)
    (hcl : ∀ j, j < k → oracle j = AttemptResult.clientError)
    (hother : oracle k = AttemptResult.otherError) :
    async_update_data oracle cached clk = (RefreshResult.updateFailed, k + 1) := by
  have h1 : fetch_data_with_retry oracle cached clk = (RefreshResult.raised, k + 1) := by
    unfold fetch_data_with_retry RETRY_ATTEMPTS
    have hs := fastRetryAux_shift oracle cached clk k 0 5 (by omega)
      (fun j hj => by simpa using hcl j hj)
    rw [hs]
    have ho := fastRetryAux_other oracle cached clk (0 + k) (5 - k) (by omega)
      (by simpa using hother)
    rw [ho]
    norm_num
  unfold async_update_data
  rw [h1]

/-- Witness for C7: a ClientError then an unexpected exception stop the run
after two calls with a terminal UpdateFailed. -/
theorem nonclient_exception_aborts_witness :
    async_update_data
      (fun i => if i = 0 then AttemptResult.clientError else AttemptResult.otherError)
      none clk0 = (RefreshResult.updateFailed, 2) :=
  nonclient_exception_aborts _ none clk0 1 (by omega) (by decide) (by decide)

/-- Counterexample for C7 as stated: an unexpected exception on the first
attempt ends the whole refresh after a single call, while a ClientError in
the same position is retried and reaches the success on the second call —
so the unexpected exception is not counted and retried like the other
failures. -/
theorem nonclient_exception_aborts_cex :
    async_update_data
      (fun i => if i = 0 then AttemptResult.otherError else AttemptResult.ok ⟨none, none⟩)
      none clk0 = (RefreshResult.updateFailed, 1)
    ∧ async_update_data
      (fun i => if i = 0 then AttemptResult.clientError else AttemptResult.ok ⟨none, none⟩)
      none clk0 = (RefreshResult.success pd0, 2) :=
  ⟨by decide, by decide⟩

/-- C3 (amended): a 200 response whose JSON body lacks the current_price and
forecasts keys is not treated as a retryable validation failure: the refresh
substitutes the defaults ("unknown" and the empty list) and accepts the
payload as a successful snapshot on the very first attempt. -/
theorem missing_fields_accepted (oracle : Nat → AttemptResult)
    (cached : Option ProcessedData) (clk : Clock)
    (h0 : oracle 0 = AttemptResult.ok ⟨none, none⟩) :
    async_update_data oracle cached clk =
      (RefreshResult.success ⟨"unknown", [], clk.iso, none, none, [], []⟩, 1) := by
  have h1 : fetch_data_with_retry oracle cached clk = (processAttempt clk ⟨none, none⟩, 1) := by
    unfold fetch_data_with_retry RETRY_ATTEMPTS
    have := fastRetryAux_ok oracle cached clk 0 5 ⟨none, none⟩ (by omega) h0
    simpa using this
  have h2 : processAttempt clk ⟨none, none⟩
      = RefreshResult.success ⟨"unknown", [], clk.iso, none, none, [], []⟩ := rfl
  unfold async_update_data
  rw [h1, h2]

/-- Witness for C3: the empty payload is accepted as a snapshot after one
call under the sample clock. -/
theorem missing_fields_accepted_witness :
    async_update_data (fun _ => AttemptResult.ok ⟨none, none⟩) none clk0
      = (RefreshResult.success pd0, 1) :=
  missing_fields_accepted _ none clk0 rfl

/-- Counterexample for C3 as stated: a payload with an unrecognized price
label and no forecasts key is accepted as a successful snapshot on the first
attempt (one call, no retry, no failure). -/
theorem missing_fields_accepted_cex :
    async_update_data (fun _ => AttemptResult.ok ⟨some "banana", none⟩) none clk0
      = (RefreshResult.success ⟨"banana", [], "iso", none, none, [], []⟩, 1) := by decide

/-- C1 (amended): for a today record holding the single window
"23:00 - 23:59" (the end label normalizes to minute 1440, making it adjacent
to tomorrow) and an instant now inside [1380,1440), if tomorrow's schedule
normalizes to a first window [0,60) of the same price and the contiguous
same-price chain stops there, the merged remaining minutes are
(1440 - now) + 60; when tomorrow's list continues the chain, the code keeps
extending within tomorrow's list (and never into a third day). -/
theorem merged_crosses_midnight (dT dM p : String) (tomRows : List Period)
    (now : Int) (h1 : 1380 ≤ now) (h2 : now < 1440) (t : List Slot)
    (hT : build_schedule_for_date
        [⟨some dT, some [⟨some "23:00 - 23:59", some p⟩]⟩, ⟨some dM, some tomRows⟩] dM
        = Except.ok (Slot.mk 0 60 p :: t))
    (hb : breaksChain p 60 t = true) :
    calculate_merged_remaining
      [⟨some dT, some [⟨some "23:00 - 23:59", some p⟩]⟩, ⟨some dM, some tomRows⟩]
      dT dM now = Except.ok (some ((1440 - now) + 60)) := by
  have hToday : build_schedule_for_date
      [⟨some dT, some [⟨some "23:00 - 23:59", some p⟩]⟩, ⟨some dM, some tomRows⟩] dT
      = Except.ok [Slot.mk 1380 1440 p] := by
    unfold build_schedule_for_date
    rw [if_pos rfl]
    rfl
  have hfc : findCurrent [Slot.mk 1380 1440 p] now = some (Slot.mk 1380 1440 p, []) := by
    unfold findCurrent
    rw [if_pos (And.intro h1 h2)]
  simp only [calculate_merged_remaining, hToday, hfc, mergeForward]
  rw [if_pos (le_refl (1440 : Int))]
  simp only [hT]
  rw [if_pos (And.intro trivial trivial)]
  rw [mergeForward_of_breaks p 60 t hb]
  have harith : (1440 : Int) + 60 - now = (1440 - now) + 60 := by ring
  rw [harith]

/-- Witness for C1 (amended): now = 23:20, a low window until the 23:59
marker, tomorrow starting with a single low window [0,60): 100 minutes. -/
theorem merged_crosses_midnight_witness :
    calculate_merged_remaining
      [⟨some "2025-06-01", some [⟨some "23:00 - 23:59", some "low"⟩]⟩,
       ⟨some "2025-06-02", some [⟨some "00:00 - 01:00", some "low"⟩]⟩]
      "2025-06-01" "2025-06-02" 1400 = Except.ok (some 100) :=
  merged_crosses_midnight "2025-06-01" "2025-06-02" "low"
    [⟨some "00:00 - 01:00", some "low"⟩] 1400 (by decide) (by decide) []
    (by decide) (by decide)

/-- Counterexample for C1 as stated: a snapshot whose today window is
[1380,1440) (raw end label "23:59"), now = 1400 inside it, and tomorrow's
first window [0,60) with the same price — yet the result is 160, not
(1440 - 1400) + 60 = 100, because tomorrow's second window [60,120) carries
the same price contiguously and the chain keeps extending through it. -/
theorem merged_crosses_midnight_cex :
    build_schedule_for_date fsMidnightChain "2025-06-01"
      = Except.ok [Slot.mk 1380 1440 "low"]
    ∧ build_schedule_for_date fsMidnightChain "2025-06-02"
      = Except.ok [Slot.mk 0 60 "low", Slot.mk 60 120 "low"]
    ∧ calculate_merged_remaining fsMidnightChain "2025-06-01" "2025-06-02" 1400
      = Except.ok (some 160)
    ∧ (160 : Int) ≠ (1440 - 1400) + 60 :=
  ⟨by decide, by decide, by decide, by decide⟩

/-- Dropping separator-less rows does not change the current-price row scan:
the scan skips exactly those rows itself. -/
theorem scanPeriodsPrice_filter (rows : List Period) (m : Int) :
    scanPeriodsPrice (rows.filter hasSep) m = scanPeriodsPrice rows m := by
  induction rows with
  | nil => rfl
  | cons p rest ih =>
    by_cases hs : hasSep p
    · rw [List.filter_cons_of_pos hs]
      cases hsp : pySplit (p.hour_range.getD "") " - " with
      | nil => exfalso; rw [hasSep, hsp] at hs; simp at hs
      | cons s l1 =>
        cases l1 with
        | nil => exfalso; rw [hasSep, hsp] at hs; simp at hs
        | cons e l2 =>
          cases l2 with
          | nil =>
            simp only [scanPeriodsPrice, hsp]
            by_cases hc : time_to_minutes s ≤ m ∧
                m < (if e = "23:59" then 1440 else time_to_minutes e)
            · rw [if_pos hc, if_pos hc]
            · rw [if_neg hc, if_neg hc]; exact ih
          | cons x l3 =>
            simp only [scanPeriodsPrice, hsp]
            rw [if_neg (by simp), if_neg (by simp)]
    · rw [List.filter_cons_of_neg hs]
      have hlen : (pySplit (p.hour_range.getD "") " - ").length ≤ 1 := by
        rw [hasSep] at hs
        simp at hs
        omega
      cases hsp : pySplit (p.hour_range.getD "") " - " with
      | nil =>
        simp only [scanPeriodsPrice, hsp]
        rw [if_pos (by simp)]
        exact ih
      | cons s l1 =>
        cases l1 with
        | nil =>
          simp only [scanPeriodsPrice, hsp]
          rw [if_pos (by simp)]
          exact ih
        | cons e l2 => exfalso; rw [hsp] at hlen; simp at hlen

/-- Dropping separator-less rows does not change the schedule builder. -/
theorem buildRows_filter (rows : List Period) :
    buildRows (rows.filter hasSep) = buildRows rows := by
  induction rows with
  | nil => rfl
  | cons p rest ih =>
    by_cases hs : hasSep p
    · rw [List.filter_cons_of_pos hs]
      cases hsp : pySplit (p.hour_range.getD "") " - " with
      | nil => exfalso; rw [hasSep, hsp] at hs; simp at hs
      | cons s l1 =>
        cases l1 with
        | nil => exfalso; rw [hasSep, hsp] at hs; simp at hs
        | cons e l2 =>
          cases l2 with
          | nil => simp only [buildRows, hsp, ih]
          | cons x l3 =>
            simp only [buildRows, hsp]
            rw [if_neg (by simp), if_neg (by simp)]
    · rw [List.filter_cons_of_neg hs]
      have hlen : (pySplit (p.hour_range.getD "") " - ").length ≤ 1 := by
        rw [hasSep] at hs
        simp at hs
        omega
      cases hsp : pySplit (p.hour_range.getD "") " - " with
      | nil =>
        simp only [buildRows, hsp]
        rw [if_pos (by simp)]
        exact ih
      | cons s l1 =>
        cases l1 with
        | nil =>
          simp only [buildRows, hsp]
          rw [if_pos (by simp)]
          exact ih
        | cons e l2 => exfalso; rw [hsp] at hlen; simp at hlen

/-- Dropping separator-less rows does not change the chart row builder. -/
theorem chartRows_filter (date : Option String) (rows : List Period) :
    chartRows date (rows.filter hasSep) = chartRows date rows := by
  induction rows with
  | nil => rfl
  | cons p rest ih =>
    by_cases hs : hasSep p
    · rw [List.filter_cons_of_pos hs]
      cases hsp : pySplit (p.hour_range.getD "") " - " with
      | nil => exfalso; rw [hasSep, hsp] at hs; simp at hs
      | cons s l1 =>
        cases l1 with
        | nil => exfalso; rw [hasSep, hsp] at hs; simp at hs
        | cons e l2 =>
          cases l2 with
          | nil => simp only [chartRows, hsp, ih]
          | cons x l3 =>
            simp only [chartRows, hsp]
            rw [if_neg (by simp), if_neg (by simp)]
    · rw [List.filter_cons_of_neg hs]
      have hlen : (pySplit (p.hour_range.getD "") " - ").length ≤ 1 := by
        rw [hasSep] at hs
        simp at hs
        omega
      cases hsp : pySplit (p.hour_range.getD "") " - " with
      | nil =>
        simp only [chartRows, hsp]
        rw [if_pos (by simp)]
        exact ih
      | cons s l1 =>
        cases l1 with
        | nil =>
          simp only [chartRows, hsp]
          rw [if_pos (by simp)]
          exact ih
        | cons e l2 => exfalso; rw [hsp] at hlen; simp at hlen

/-- Dropping separator-less rows does not change the today next-change scan. -/
theorem scanPeriodsToday_filter (rows : List Period) (m : Int) (today : String) :
    scanPeriodsToday (rows.filter hasSep) m today = scanPeriodsToday rows m today := by
  induction rows with
  | nil => rfl
  | cons p rest ih =>
    by_cases hs : hasSep p
    · rw [List.filter_cons_of_pos hs]
      cases hsp : pySplit (p.hour_range.getD "") " - " with
      | nil => exfalso; rw [hasSep, hsp] at hs; simp at hs
      | cons s l1 =>
        cases l1 with
        | nil => exfalso; rw [hasSep, hsp] at hs; simp at hs
        | cons e l2 =>
          cases l2 with
          | nil =>
            simp only [scanPeriodsToday, hsp]
            by_cases hc : m < time_to_minutes s
            · rw [if_pos hc, if_pos hc]
            · rw [if_neg hc, if_neg hc]; exact ih
          | cons x l3 =>
            simp only [scanPeriodsToday, hsp]
            rw [if_neg (by simp), if_neg (by simp)]
    · rw [List.filter_cons_of_neg hs]
      have hlen : (pySplit (p.hour_range.getD "") " - ").length ≤ 1 := by
        rw [hasSep] at hs
        simp at hs
        omega
      cases hsp : pySplit (p.hour_range.getD "") " - " with
      | nil =>
        simp only [scanPeriodsToday, hsp]
        rw [if_pos (by simp)]
        exact ih
      | cons s l1 =>
        cases l1 with
        | nil =>
          simp only [scanPeriodsToday, hsp]
          rw [if_pos (by simp)]
          exact ih
        | cons e l2 => exfalso; rw [hsp] at hlen; simp at hlen

/-- Garbage rows are invisible to the schedule builder at the day level. -/
theorem build_schedule_dropGarbage (fs : List DayForecast) (d : String) :
    build_schedule_for_date (dropGarbage fs) d = build_schedule_for_date fs d := by
  induction fs with
  | nil => rfl
  | cons day rest ih =>
    rw [show dropGarbage (day :: rest)
        = ⟨day.date, some ((day.forecast.getD []).filter hasSep)⟩ :: dropGarbage rest from rfl]
    by_cases hd : day.date = some d
    · simp only [build_schedule_for_date]
      rw [if_pos hd, if_pos hd]
      simp only [Option.getD_some]
      rw [buildRows_filter]
    · simp only [build_schedule_for_date]
      rw [if_neg hd, if_neg hd]
      exact ih

/-- Garbage rows are invisible to the current-price lookup at the day level. -/
theorem calculate_current_price_dropGarbage (fs : List DayForecast) (d : String) (m : Int) :
    calculate_current_price (dropGarbage fs) d m = calculate_current_price fs d m := by
  induction fs with
  | nil => rfl
  | cons day rest ih =>
    rw [show dropGarbage (day :: rest)
        = ⟨day.date, some ((day.forecast.getD []).filter hasSep)⟩ :: dropGarbage rest from rfl]
    by_cases hd : day.date = some d
    · simp only [calculate_current_price]
      rw [if_pos hd, if_pos hd]
      simp only [Option.getD_some]
      rw [scanPeriodsPrice_filter]
      cases scanPeriodsPrice (day.forecast.getD []) m with
      | error e => rfl
      | ok r =>
        cases r with
        | none => exact ih
        | some v => rfl
    · simp only [calculate_current_price]
      rw [if_neg hd, if_neg hd]
      exact ih

/-- Garbage rows are invisible to the today next-change scan at the day
level. -/
theorem nextChangeToday_dropGarbage (fs : List DayForecast) (d : String) (m : Int) :
    nextChangeToday (dropGarbage fs) d m = nextChangeToday fs d m := by
  induction fs with
  | nil => rfl
  | cons day rest ih =>
    rw [show dropGarbage (day :: rest)
        = ⟨day.date, some ((day.forecast.getD []).filter hasSep)⟩ :: dropGarbage rest from rfl]
    by_cases hd : day.date = some d
    · simp only [nextChangeToday]
      rw [if_pos hd, if_pos hd]
      simp only [Option.getD_some]
      rw [scanPeriodsToday_filter]
      cases scanPeriodsToday (day.forecast.getD []) m d with
      | error e => rfl
      | ok r =>
        cases r with
        | none => exact ih
        | some v => rfl
    · simp only [nextChangeToday]
      rw [if_neg hd, if_neg hd]
      exact ih

/-- Garbage rows are invisible to the chart-data generator. -/
theorem generate_chart_data_dropGarbage (fs : List DayForecast) :
    generate_chart_data (dropGarbage fs) = generate_chart_data fs := by
  induction fs with
  | nil => rfl
  | cons day rest ih =>
    rw [show dropGarbage (day :: rest)
        = ⟨day.date, some ((day.forecast.getD []).filter hasSep)⟩ :: dropGarbage rest from rfl]
    simp only [generate_chart_data, Option.getD_some]
    rw [chartRows_filter]
    cases chartRows day.date (day.forecast.getD []) with
    | error e => rfl
    | ok l => rw [ih]

/-- C10 (amended): a forecast row without the " - " separator is skipped as
if absent by the current-price lookup, the normalized schedule construction
used for merging, and the chart-data generation, and by the today half of
the next-change scan; a garbage row standing in for the middle window of a
same-price run therefore leaves a gap that breaks the merge chain (today
windows [0,360,low), garbage, [600,900,low) with now = 200 give 160
remaining minutes, not 700).  The tomorrow half of the next-change scan is
the exception recorded in the counterexample. -/
theorem garbage_rows_skipped :
    (∀ (fs : List DayForecast) (d : String) (m : Int),
        calculate_current_price (dropGarbage fs) d m = calculate_current_price fs d m)
    ∧ (∀ (fs : List DayForecast) (d : String),
        build_schedule_for_date (dropGarbage fs) d = build_schedule_for_date fs d)
    ∧ (∀ fs : List DayForecast,
        generate_chart_data (dropGarbage fs) = generate_chart_data fs)
    ∧ (∀ (fs : List DayForecast) (d : String) (m : Int),
        nextChangeToday (dropGarbage fs) d m = nextChangeToday fs d m)
    ∧ calculate_merged_remaining fsGapRun "2025-08-01" "2025-08-02" 200
        = Except.ok (some 160) :=
  ⟨calculate_current_price_dropGarbage, build_schedule_dropGarbage,
   generate_chart_data_dropGarbage, nextChangeToday_dropGarbage, by decide⟩

/-- Counterexample for C10 as stated: in the tomorrow branch of the
next-change scan a garbage first row is not skipped as if absent — the scan
yields nothing, whereas with the row removed it returns the following
well-formed window. -/
theorem garbage_rows_skipped_cex :
    find_next_change fsGarbageTomorrow "2025-03-01" "2025-03-02" 100 = Except.ok none
    ∧ find_next_change (dropGarbage fsGarbageTomorrow) "2025-03-01" "2025-03-02" 100
      = Except.ok (some ⟨"06:00", some "low", "2025-03-02"⟩) :=
  ⟨by decide, by decide⟩

/-- The today next-change row scan returns the first row (kept in order)
whose start minute lies strictly after now. -/
theorem scanPeriodsToday_spec (rows : List Period) (m : Int) (today : String)
    (h : rows.all (fun p => (pySplit (p.hour_range.getD "") " - ").length = 2) = true) :
    scanPeriodsToday rows m today =
      Except.ok (((rows.filterMap rowStart?).find?
        (fun c => decide (m < time_to_minutes c.1))).map
          (fun c => ⟨c.1, c.2, today⟩)) := by
  induction rows with
  | nil => rfl
  | cons p rest ih =>
    simp only [List.all_cons, Bool.and_eq_true] at h
    obtain ⟨hp, hrest⟩ := h
    rw [decide_eq_true_eq] at hp
    cases hsp : pySplit (p.hour_range.getD "") " - " with
    | nil => rw [hsp] at hp; simp at hp
    | cons s l1 =>
      cases l1 with
      | nil => rw [hsp] at hp; simp at hp
      | cons e l2 =>
        cases l2 with
        | cons x l3 => rw [hsp] at hp; simp at hp
        | nil =>
          have hr : rowStart? p = some (s, p.price) := by
            unfold rowStart?
            rw [hsp]
          simp only [scanPeriodsToday, hsp, List.filterMap_cons, hr]
          by_cases hc : m < time_to_minutes s
          · rw [if_pos hc, List.find?_cons_of_pos _ (by simpa using hc)]
            rfl
          · rw [if_neg hc, List.find?_cons_of_neg _ (by simpa using hc)]
            exact ih hrest

/-- The today half of the next-change lookup scans the concatenated rows of
every record carrying today's date. -/
theorem nextChangeToday_spec (fs : List DayForecast) (today : String) (m : Int)
    (h : fullRanges fs = true) :
    nextChangeToday fs today m =
      Except.ok ((((rowsOf fs today).filterMap rowStart?).find?
        (fun c => decide (m < time_to_minutes c.1))).map
          (fun c => ⟨c.1, c.2, today⟩)) := by
  induction fs with
  | nil => rfl
  | cons day rest ih =>
    simp only [fullRanges, List.all_cons, Bool.and_eq_true] at h
    obtain ⟨hday, hrest⟩ := h
    have ihr := ih hrest
    by_cases hd : day.date = some today
    · simp only [nextChangeToday, rowsOf]
      rw [if_pos hd, if_pos hd]
      rw [scanPeriodsToday_spec (day.forecast.getD []) m today (by simpa using hday)]
      rw [List.filterMap_append, find?_split]
      cases hfind : ((day.forecast.getD []).filterMap rowStart?).find?
          (fun c => decide (m < time_to_minutes c.1)) with
      | some c => rfl
      | none => exact ihr
    · simp only [nextChangeToday, rowsOf]
      rw [if_neg hd, if_neg hd]
      exact ihr

/-- The tomorrow half of the next-change lookup returns the head of the
concatenated rows of tomorrow's records, when every row is well formed. -/
theorem nextChangeTomorrow_spec (fs : List DayForecast) (tomorrow : String)
    (h : fullRanges fs = true) :
    nextChangeTomorrow fs tomorrow =
      Except.ok
        (match rowsOf fs tomorrow with
         | [] => none
         | p :: _ => (rowStart? p).map (fun c => ⟨c.1, c.2, tomorrow⟩)) := by
  induction fs with
  | nil => rfl
  | cons day rest ih =>
    simp only [fullRanges, List.all_cons, Bool.and_eq_true] at h
    obtain ⟨hday, hrest⟩ := h
    have ihr := ih hrest
    by_cases hd : day.date = some tomorrow
    · simp only [nextChangeTomorrow, rowsOf]
      rw [if_pos hd, if_pos hd]
      cases hrows : day.forecast.getD [] with
      | nil => simpa using ihr
      | cons p tl =>
        have hp : (pySplit (p.hour_range.getD "") " - ").length = 2 := by
          rw [hrows] at hday
          simp only [List.all_cons, Bool.and_eq_true] at hday
          exact of_decide_eq_true hday.1
        cases hsp : pySplit (p.hour_range.getD "") " - " with
        | nil => rw [hsp] at hp; simp at hp
        | cons s l1 =>
          cases l1 with
          | nil => rw [hsp] at hp; simp at hp
          | cons e l2 =>
            cases l2 with
            | cons x l3 => rw [hsp] at hp; simp at hp
            | nil =>
              have hr : rowStart? p = some (s, p.price) := by
                unfold rowStart?
                rw [hsp]
              simp only [hsp, List.cons_append, hr]
              rfl
    · simp only [nextChangeTomorrow, rowsOf]
      rw [if_neg hd, if_neg hd]
      exact ihr

/-- C5: when every forecast row is a well-formed "HH:MM - HH:MM" range, the
next-change lookup returns the first of today's windows (in scan order)
starting strictly after now's minute of day; when no such window exists it
returns tomorrow's first window unconditionally — even when its price equals
the current one, since the specification view performs no price comparison —
and gives no value only when neither exists. -/
theorem next_change_follows_spec (fs : List DayForecast) (today tomorrow : String)
    (m : Int) (h : fullRanges fs = true) :
    find_next_change fs today tomorrow m = Except.ok (specNextChange fs today tomorrow m) := by
  unfold find_next_change specNextChange
  rw [nextChangeToday_spec fs today m h]
  cases hfind : ((rowsOf fs today).filterMap rowStart?).find?
      (fun c => decide (m < time_to_minutes c.1)) with
  | some c => rfl
  | none => exact nextChangeTomorrow_spec fs tomorrow h

/-- Witness for C5: today's only window starts at 0, now = 1000, so today is
exhausted; tomorrow's first window is returned although its price ("low")
equals the current price. -/
theorem next_change_follows_spec_witness :
    find_next_change fsTodayTomorrow "2025-07-01" "2025-07-02" 1000
      = Except.ok (some ⟨"00:00", some "low", "2025-07-02"⟩) :=
  (next_change_follows_spec fsTodayTomorrow "2025-07-01" "2025-07-02" 1000
    (by decide)).trans (by decide)

/-- The current-price row scan returns the price of the first normalized
window containing the minute. -/
theorem scanPeriodsPrice_spec (rows : List Period) (m : Int)
    (h : rows.all cleanRow = true) :
    scanPeriodsPrice rows m =
      Except.ok (((rows.filterMap rowSlot?).find?
        (fun w => decide (w.start_m ≤ m ∧ m < w.end_m))).map Slot.price) := by
  induction rows with
  | nil => rfl
  | cons p rest ih =>
    simp only [List.all_cons, Bool.and_eq_true] at h
    obtain ⟨hp, hrest⟩ := h
    cases hsp : pySplit (p.hour_range.getD "") " - " with
    | nil =>
      have hr : rowSlot? p = none := by
        unfold rowSlot?
        rw [hsp]
      simp only [scanPeriodsPrice, hsp, List.filterMap_cons, hr]
      rw [if_pos (by simp)]
      exact ih hrest
    | cons s l1 =>
      cases l1 with
      | nil =>
        have hr : rowSlot? p = none := by
          unfold rowSlot?
          rw [hsp]
        simp only [scanPeriodsPrice, hsp, List.filterMap_cons, hr]
        rw [if_pos (by simp)]
        exact ih hrest
      | cons e l2 =>
        cases l2 with
        | cons x l3 =>
          exfalso
          rw [cleanRow, hsp] at hp
          simp at hp
        | nil =>
          have hr : rowSlot? p = some ⟨time_to_minutes s,
              if e = "23:59" then 1440 else time_to_minutes e,
              p.price.getD "unknown"⟩ := by
            unfold rowSlot?
            rw [hsp]
          simp only [scanPeriodsPrice, hsp, List.filterMap_cons, hr]
          by_cases hc : time_to_minutes s ≤ m ∧
              m < (if e = "23:59" then 1440 else time_to_minutes e)
          · rw [if_pos hc, List.find?_cons_of_pos _ (by simpa using hc)]
            rfl
          · rw [if_neg hc, List.find?_cons_of_neg _ (by simpa using hc)]
            exact ih hrest

/-- The day-level current-price lookup equals the first containing window of
today's concatenated normalized windows. -/
theorem calculate_current_price_spec (fs : List DayForecast) (today : String) (m : Int)
    (h : cleanForecasts fs = true) :
    calculate_current_price fs today m =
      Except.ok (((todayWindows fs today).find?
        (fun w => decide (w.start_m ≤ m ∧ m < w.end_m))).map Slot.price) := by
  induction fs with
  | nil => rfl
  | cons day rest ih =>
    simp only [cleanForecasts, List.all_cons, Bool.and_eq_true] at h
    obtain ⟨hday, hrest⟩ := h
    have ihr := ih hrest
    by_cases hd : day.date = some today
    · simp only [calculate_current_price, todayWindows, rowsOf]
      rw [if_pos hd, if_pos hd]
      rw [scanPeriodsPrice_spec (day.forecast.getD []) m (by simpa using hday)]
      rw [List.filterMap_append, find?_split]
      cases hfind : ((day.forecast.getD []).filterMap rowSlot?).find?
          (fun w => decide (w.start_m ≤ m ∧ m < w.end_m)) with
      | some w => rfl
      | none => exact ihr
    · simp only [calculate_current_price, todayWindows, rowsOf]
      rw [if_neg hd, if_neg hd]
      exact ihr

/-- Pairwise non-overlap makes the window containing a given minute unique. -/
theorem pairwise_unique (l : List Slot) (m : Int) (hp : pairwiseNoOverlap l = true) :
    ∀ w w', w ∈ l → w' ∈ l → (w.start_m ≤ m ∧ m < w.end_m) →
      (w'.start_m ≤ m ∧ m < w'.end_m) → w = w' := by
  induction l with
  | nil => intro w w' hw _ _ _; simp at hw
  | cons a rest ih =>
    simp only [pairwiseNoOverlap, Bool.and_eq_true] at hp
    obtain ⟨hall, hrest⟩ := hp
    intro w w' hw hw' hcw hcw'
    rcases List.mem_cons.1 hw with hwa | hwr
    · rcases List.mem_cons.1 hw' with hwa' | hwr'
      · rw [hwa, hwa']
      · exfalso
        have hno := (List.all_eq_true.1 hall) w' hwr'
        simp only [noOverlap, Bool.or_eq_true, decide_eq_true_eq] at hno
        obtain ⟨h1, h2⟩ := hcw
        obtain ⟨h3, h4⟩ := hcw'
        rw [hwa] at h1 h2
        omega
    · rcases List.mem_cons.1 hw' with hwa' | hwr'
      · exfalso
        have hno := (List.all_eq_true.1 hall) w hwr
        simp only [noOverlap, Bool.or_eq_true, decide_eq_true_eq] at hno
        obtain ⟨h1, h2⟩ := hcw
        obtain ⟨h3, h4⟩ := hcw'
        rw [hwa'] at h3 h4
        omega
      · exact ih hrest w w' hwr hwr' hcw hcw'

/-- C6: for a snapshot whose rows are clean (no hour_range holds " - "
twice, so no scan raises) and whose normalized today windows are pairwise
non-overlapping, the current-price lookup returns a price exactly when some
window of today's schedule contains the minute; the price is that of the
(unique) containing window, and a miss yields an explicit None rather than
an error. -/
theorem current_price_iff (fs : List DayForecast) (today : String) (m : Int)
    (hclean : cleanForecasts fs = true)
    (hdisj : pairwiseNoOverlap (todayWindows fs today) = true) :
    (∀ p : String, calculate_current_price fs today m = Except.ok (some p) ↔
        ∃ w, w ∈ todayWindows fs today ∧ (w.start_m ≤ m ∧ m < w.end_m) ∧ w.price = p)
    ∧ (calculate_current_price fs today m = Except.ok none ↔
        ∀ w, w ∈ todayWindows fs today → ¬(w.start_m ≤ m ∧ m < w.end_m))
    ∧ (∀ w w', w ∈ todayWindows fs today → w' ∈ todayWindows fs today →
        (w.start_m ≤ m ∧ m < w.end_m) → (w'.start_m ≤ m ∧ m < w'.end_m) → w = w') := by
  have hmain := calculate_current_price_spec fs today m hclean
  have huniq := pairwise_unique (todayWindows fs today) m hdisj
  refine ⟨?_, ?_, huniq⟩
  · intro p
    rw [hmain]
    constructor
    · intro h
      have h' : ((todayWindows fs today).find?
          (fun w => decide (w.start_m ≤ m ∧ m < w.end_m))).map Slot.price = some p :=
        Except.ok.inj h
      cases hf : (todayWindows fs today).find?
          (fun w => decide (w.start_m ≤ m ∧ m < w.end_m)) with
      | none => rw [hf] at h'; simp at h'
      | some w =>
        rw [hf] at h'
        simp only [Option.map_some'] at h'
        refine ⟨w, List.mem_of_find?_eq_some hf, ?_, Option.some.inj h'⟩
        have := List.find?_some hf
        simpa using this
    · rintro ⟨w, hwmem, hwcont, hwp⟩
      have hex : ((todayWindows fs today).find?
          (fun w => decide (w.start_m ≤ m ∧ m < w.end_m))).isSome := by
        rw [List.find?_isSome]
        exact ⟨w, hwmem, by simpa using hwcont⟩
      cases hf : (todayWindows fs today).find?
          (fun w => decide (w.start_m ≤ m ∧ m < w.end_m)) with
      | none => rw [hf] at hex; simp at hex
      | some v =>
        have hvcont : v.start_m ≤ m ∧ m < v.end_m := by
          have := List.find?_some hf
          simpa using this
        have hv : v = w :=
          huniq v w (List.mem_of_find?_eq_some hf) hwmem hvcont hwcont
        rw [Option.map_some', hv, hwp]
  · rw [hmain]
    constructor
    · intro h w hwmem hwcont
      have h' : ((todayWindows fs today).find?
          (fun w => decide (w.start_m ≤ m ∧ m < w.end_m))).map Slot.price = none :=
        Except.ok.inj h
      have hnone : (todayWindows fs today).find?
          (fun w => decide (w.start_m ≤ m ∧ m < w.end_m)) = none := by
        cases hf : (todayWindows fs today).find?
            (fun w => decide (w.start_m ≤ m ∧ m < w.end_m)) with
        | none => rfl
        | some v => rw [hf] at h'; simp at h'
      rw [List.find?_eq_none] at hnone
      have hx := hnone w hwmem
      simp only [decide_eq_true_eq] at hx
      exact hx hwcont
    · intro hall
      have hnone : (todayWindows fs today).find?
          (fun w => decide (w.start_m ≤ m ∧ m < w.end_m)) = none := by
        rw [List.find?_eq_none]
        intro x hx
        simpa using hall x hx
      rw [hnone]
      rfl

/-- Witness for C6: a clean two-window day; minute 100 falls in the low
window, minute 1000 falls in no window. -/
theorem current_price_iff_witness :
    calculate_current_price fsTwoWindows "2025-09-01" 100 = Except.ok (some "low")
    ∧ calculate_current_price fsTwoWindows "2025-09-01" 1000 = Except.ok none :=
  ⟨((current_price_iff fsTwoWindows "2025-09-01" 100 (by decide) (by decide)).1 "low").mpr
     ⟨⟨0, 360, "low"⟩, by decide, by decide, rfl⟩,
   ((current_price_iff fsTwoWindows "2025-09-01" 1000 (by decide) (by decide)).2.1).mpr
     (by decide)⟩

end AMB
